import Mathlib

/-!
Verification development for the amethyst dispatcher and UI layout engine.

The definitions below are a shallow embedding of the Rust sources:
* `src/amethyst_core/src/dispatcher.rs` — `DispatcherBuilder`, `DispatcherData`,
  `Dispatcher`, items, steps, bundle load/unload;
* `src/amethyst_ui/src/layout.rs` — `Anchor`, `Stretch`, `ScaleMode`,
  `process_root_iter` and the child-phase body of `UiTransformSystem::build`;
* `src/amethyst_ui/src/blink.rs` — `Blink` and the body of `build_blink_system`.

Systems, thread-local functions and bundles are identified by `Nat` labels
(the schedule structure never inspects them).  `f32` coordinates are modelled
by `ℚ`; every concrete scenario below uses values on which `f32` arithmetic is
exact, so the rational results coincide with the float results.
-/

namespace Amethyst

/-- Dispatcher items, mirroring `enum DispatcherItem` in `dispatcher.rs`.
A bundle is embedded together with the outcome of its `load` call:
`bundleFail bid err` is a bundle whose `load` returns `Err(err)`;
`bundleOk bid items` is a bundle whose `load` pushes `items` into the fresh
sub-builder and returns `Ok(())`.  (`unload` of every modelled bundle is the
default implementation, which returns `Ok(())`.) -/
inductive DItem where
  | system (s : Nat)
  | flushCmdBuffers
  | threadLocalFn (f : Nat)
  | threadLocalSystem (s : Nat)
  | bundleFail (bid : Nat) (err : Nat)
  | bundleOk (bid : Nat) (items : List DItem)

/-- Schedule steps, mirroring `enum Step` of the ECS layer as used by
`dispatcher.rs`: `systems` is `Step::Systems(Executor::new(group))`. -/
inductive Step where
  | systems (group : List Nat)
  | flushCmdBuffers
  | threadLocalFn (f : Nat)
  | threadLocalSystem (s : Nat)
deriving DecidableEq, Repr

/-- Bundle lifecycle events.  `loadOk`/`loadErr` are emitted at the moment a
bundle's `load` returns; `unload` is emitted by `Dispatcher::unload`.  This is
ghost instrumentation used only to state lifecycle claims; it does not affect
the computed schedule. -/
inductive BEvent where
  | loadOk (bid : Nat)
  | loadErr (bid : Nat) (err : Nat)
  | unload (bid : Nat)
deriving DecidableEq, Repr

/-- `DispatcherData` of `dispatcher.rs` (steps, accumulator, bundles), plus the
ghost `trace` of lifecycle events. -/
structure DData where
  steps : List Step := []
  accumulator : List Nat := []
  bundles : List Nat := []
  trace : List BEvent := []
deriving DecidableEq, Repr

/-- `DispatcherData::finalize_executor`: if the accumulator is non-empty, the
accumulated systems become one `Step::Systems(Executor)` and the accumulator is
cleared. -/
def finalizeExecutor (d : DData) : DData :=
  if d.accumulator.isEmpty then d
  else { d with steps := d.steps ++ [Step.systems d.accumulator], accumulator := [] }

/-- `DispatcherBuilder::load`: drains the item list in order into `DData`.
Returns the updated data together with `some err` if some bundle's `load`
failed (the `?` operator), in which case the remaining items are not
processed.  A `bundleOk` first has its own `load` succeed (items produced into
a fresh sub-builder), then the sub-items are recursively loaded into the same
data, then the bundle is pushed onto `data.bundles`. -/
def loadItems : List DItem → DData → DData × Option Nat
  | [], d => (d, none)
  | DItem.system s :: rest, d =>
      loadItems rest { d with accumulator := d.accumulator ++ [s] }
  | DItem.flushCmdBuffers :: rest, d =>
      let d := finalizeExecutor d
      loadItems rest { d with steps := d.steps ++ [Step.flushCmdBuffers] }
  | DItem.threadLocalFn f :: rest, d =>
      let d := finalizeExecutor d
      loadItems rest { d with steps := d.steps ++ [Step.threadLocalFn f] }
  | DItem.threadLocalSystem s :: rest, d =>
      let d := finalizeExecutor d
      loadItems rest { d with steps := d.steps ++ [Step.threadLocalSystem s] }
  | DItem.bundleFail bid err :: _, d =>
      ({ d with trace := d.trace ++ [BEvent.loadErr bid err] }, some err)
  | DItem.bundleOk bid sub :: rest, d =>
      let d1 : DData := { d with trace := d.trace ++ [BEvent.loadOk bid] }
      match loadItems sub d1 with
      | (d2, some e) => (d2, some e)
      | (d2, none) => loadItems rest { d2 with bundles := d2.bundles ++ [bid] }

/-- `Dispatcher`: the built schedule plus the retained bundles. -/
structure Dispatcher where
  schedule : List Step
  bundles : List Nat
deriving DecidableEq, Repr

/-- `DispatcherBuilder::build`: appends the implicit trailing flush, loads
everything, and on success wraps the result into a `Dispatcher`. -/
def buildD (items : List DItem) : Except Nat Dispatcher :=
  match loadItems (items ++ [DItem.flushCmdBuffers]) {} with
  | (_, some e) => Except.error e
  | (d, none) => Except.ok { schedule := d.steps, bundles := d.bundles }

/-- The ghost lifecycle trace produced while building (present both on success
and on failure). -/
def buildTrace (items : List DItem) : List BEvent :=
  (loadItems (items ++ [DItem.flushCmdBuffers]) {}).1.trace

/-- `Dispatcher::unload`: calls `unload` on each retained bundle in the order
of the `bundles` vector.  All modelled bundles use the default `unload`
(which returns `Ok`), so every retained bundle is invoked; the result is the
sequence of `unload` invocations. -/
def unloadCalls (disp : Dispatcher) : List BEvent :=
  disp.bundles.map BEvent.unload

/-- Is a step a thread-local step (system or closure)? -/
def Step.isThreadLocal : Step → Bool
  | Step.threadLocalFn _ => true
  | Step.threadLocalSystem _ => true
  | _ => false

/-- Is a step an `Executor` (`Step.systems`)? -/
def Step.isExec : Step → Bool
  | Step.systems _ => true
  | _ => false

/-- The barrier-placement property claimed by the spec: a thread-local step
never immediately follows an `Executor` step (without an intervening
`FlushBarrier`). -/
def barrierPlacement : List Step → Bool
  | Step.systems _ :: s :: rest => !s.isThreadLocal && barrierPlacement (s :: rest)
  | _ :: rest => barrierPlacement rest
  | [] => true

/-- No two `Executor` steps are adjacent. -/
def noAdjExec : List Step → Bool
  | s₁ :: s₂ :: rest => !(s₁.isExec && s₂.isExec) && noAdjExec (s₂ :: rest)
  | _ => true

/-- Every `Executor` step carries a non-empty group of systems. -/
def execsNonempty : List Step → Bool
  | [] => true
  | Step.systems g :: rest => !g.isEmpty && execsNonempty rest
  | _ :: rest => execsNonempty rest

/-- Item list without bundles (all items are systems, flushes or
thread-locals). -/
def bundleFree : List DItem → Bool
  | [] => true
  | DItem.system _ :: rest => bundleFree rest
  | DItem.flushCmdBuffers :: rest => bundleFree rest
  | DItem.threadLocalFn _ :: rest => bundleFree rest
  | DItem.threadLocalSystem _ :: rest => bundleFree rest
  | _ => false

/-- Projection of a step back to the dispatcher items that produced it. -/
def flattenStep : Step → List DItem
  | Step.systems g => g.map DItem.system
  | Step.flushCmdBuffers => [DItem.flushCmdBuffers]
  | Step.threadLocalFn f => [DItem.threadLocalFn f]
  | Step.threadLocalSystem s => [DItem.threadLocalSystem s]

/-- Projection of a whole schedule back to items. -/
def flattenSteps (steps : List Step) : List DItem :=
  steps.flatMap flattenStep

/-- Bundle identifiers in the order the bundles' `load` calls return `Ok`:
an enclosing bundle's own `load` returns before the loads of the bundles it
nested (pre-order). -/
def preOrderB : List DItem → List Nat
  | [] => []
  | DItem.bundleOk bid sub :: rest => bid :: (preOrderB sub ++ preOrderB rest)
  | _ :: rest => preOrderB rest

/-- Bundle identifiers in the order `DispatcherBuilder::load` pushes them onto
`DispatcherData::bundles`: nested bundles are pushed before their enclosing
bundle (post-order). -/
def postOrderB : List DItem → List Nat
  | [] => []
  | DItem.bundleOk bid sub :: rest => (postOrderB sub ++ [bid]) ++ postOrderB rest
  | _ :: rest => postOrderB rest

/-- The error of the first bundle `load` that fails during a traversal of the
item list (traversal order of `DispatcherBuilder::load`), if any.  `bundleOk`
bundles never fail themselves but their nested items may. -/
def firstErrB : List DItem → Option Nat
  | [] => none
  | DItem.bundleFail _ err :: _ => some err
  | DItem.bundleOk _ sub :: rest =>
      match firstErrB sub with
      | some e => some e
      | none => firstErrB rest
  | _ :: rest => firstErrB rest

/-- Is a lifecycle event an `unload` invocation? -/
def BEvent.isUnload : BEvent → Bool
  | BEvent.unload _ => true
  | _ => false

/-- The `loadOk` bundle ids of a trace, in order. -/
def loadOks (tr : List BEvent) : List Nat :=
  tr.filterMap fun e =>
    match e with
    | BEvent.loadOk bid => some bid
    | _ => none

/-- Is the last step of a schedule an `Executor`? (`false` on the empty
schedule.) -/
def lastExec (l : List Step) : Bool :=
  match l.getLast? with
  | some s => s.isExec
  | none => false

/-- The step-list invariant maintained by `DispatcherBuilder::load`: no
adjacent `Executor`s, every `Executor` non-empty, and the list never ends in a
bare `Executor` (each emitted `Executor` is immediately followed by the step
of the item that closed the group). -/
def goodSteps (l : List Step) : Bool :=
  noAdjExec l && execsNonempty l && !lastExec l

/-! ## UI layout (`layout.rs`) -/

/-- `enum ScaleMode` of `layout.rs`. -/
inductive ScaleMode where
  | Pixel
  | Percent
deriving DecidableEq, Repr

/-- `enum Anchor` of `layout.rs`. -/
inductive Anchor where
  | TopLeft
  | TopMiddle
  | TopRight
  | MiddleLeft
  | Middle
  | MiddleRight
  | BottomLeft
  | BottomMiddle
  | BottomRight
deriving DecidableEq, Repr

/-- `Anchor::norm_offset`: the normalized `(x, y)` offset of the anchor. -/
def Anchor.norm_offset : Anchor → ℚ × ℚ
  | Anchor.TopLeft => (-(1/2), 1/2)
  | Anchor.TopMiddle => (0, 1/2)
  | Anchor.TopRight => (1/2, 1/2)
  | Anchor.MiddleLeft => (-(1/2), 0)
  | Anchor.Middle => (0, 0)
  | Anchor.MiddleRight => (1/2, 0)
  | Anchor.BottomLeft => (-(1/2), -(1/2))
  | Anchor.BottomMiddle => (0, -(1/2))
  | Anchor.BottomRight => (1/2, -(1/2))

/-- `enum Stretch` of `layout.rs`. -/
inductive Stretch where
  | NoStretch
  | X (x_margin : ℚ)
  | Y (y_margin : ℚ)
  | XY (x_margin : ℚ) (y_margin : ℚ) (keep_aspect_ratio : Bool)
deriving DecidableEq, Repr

/-- `UiTransform` (fields used by the layout resolver; `f32` modelled by
`ℚ`). -/
structure UiTransform where
  local_x : ℚ
  local_y : ℚ
  local_z : ℚ
  width : ℚ
  height : ℚ
  pixel_x : ℚ
  pixel_y : ℚ
  pixel_width : ℚ
  pixel_height : ℚ
  global_z : ℚ
  anchor : Anchor
  pivot : Anchor
  stretch : Stretch
  scale_mode : ScaleMode
deriving DecidableEq, Repr

/-- The body of `process_root_iter` applied to one transform: resolve a root
against the screen `(sw, sh)`. -/
def processRoot (sw sh : ℚ) (t : UiTransform) : UiTransform :=
  let norm := t.anchor.norm_offset
  let px0 := sw / 2 + sw * norm.1
  let py0 := sh / 2 + sh * norm.2
  let gz := t.local_z
  let new_size : ℚ × ℚ :=
    match t.stretch with
    | Stretch.NoStretch => (t.width, t.height)
    | Stretch.X xm => (sw - xm * 2, t.height)
    | Stretch.Y ym => (t.width, sh - ym * 2)
    | Stretch.XY xm ym false => (sw - xm * 2, sh - ym * 2)
    | Stretch.XY xm ym true =>
        let scale := min ((sw - xm * 2) / t.width) ((sh - ym * 2) / t.height)
        (t.width * scale, t.height * scale)
  let w := new_size.1
  let h := new_size.2
  let sized : ℚ × ℚ × ℚ × ℚ :=
    match t.scale_mode with
    | ScaleMode.Pixel => (px0 + t.local_x, py0 + t.local_y, w, h)
    | ScaleMode.Percent => (px0 + t.local_x * sw, py0 + t.local_y * sh, w * sw, h * sh)
  let pivot_norm := t.pivot.norm_offset
  { t with
    width := w, height := h,
    global_z := gz,
    pixel_width := sized.2.2.1,
    pixel_height := sized.2.2.2,
    pixel_x := sized.1 + sized.2.2.1 * (-pivot_norm.1),
    pixel_y := sized.2.1 + sized.2.2.2 * (-pivot_norm.2) }

/-- The body of the child loop of `UiTransformSystem::build` applied to one
transform `t`, reading the parent's transform `pt` from the snapshot. -/
def processChild (pt t : UiTransform) : UiTransform :=
  let norm := t.anchor.norm_offset
  let px0 := pt.pixel_x + pt.pixel_width * norm.1
  let py0 := pt.pixel_y + pt.pixel_height * norm.2
  let gz := pt.global_z + t.local_z
  let new_size : ℚ × ℚ :=
    match t.stretch with
    | Stretch.NoStretch => (t.width, t.height)
    | Stretch.X xm => (pt.pixel_width - xm * 2, t.height)
    | Stretch.Y ym => (t.width, pt.pixel_height - ym * 2)
    | Stretch.XY xm ym false => (pt.pixel_width - xm * 2, pt.pixel_height - ym * 2)
    | Stretch.XY xm ym true =>
        let scale := min ((pt.pixel_width - xm * 2) / t.width)
          ((pt.pixel_height - ym * 2) / t.height)
        (t.width * scale, t.height * scale)
  let w := new_size.1
  let h := new_size.2
  let sized : ℚ × ℚ × ℚ × ℚ :=
    match t.scale_mode with
    | ScaleMode.Pixel => (px0 + t.local_x, py0 + t.local_y, w, h)
    | ScaleMode.Percent =>
        (px0 + t.local_x * pt.pixel_width, py0 + t.local_y * pt.pixel_height,
         w * pt.pixel_width, h * pt.pixel_height)
  let pivot_norm := t.pivot.norm_offset
  { t with
    width := w, height := h,
    global_z := gz,
    pixel_width := sized.2.2.1,
    pixel_height := sized.2.2.2,
    pixel_x := sized.1 + sized.2.2.1 * (-pivot_norm.1),
    pixel_y := sized.2.1 + sized.2.2.2 * (-pivot_norm.2) }

/-- A UI entity: its id, its optional `Parent` component, and its
`UiTransform`.  Entities without a `UiTransform` are simply absent from the
world list (the layout queries require the transform). -/
structure UiEntity where
  eid : Nat
  parent : Option Nat
  transform : UiTransform
deriving DecidableEq, Repr

/-- Phase A applied to one entity: `process_root_iter` touches exactly the
entities with a `UiTransform` and no `Parent`. -/
def rootStepE (sw sh : ℚ) (e : UiEntity) : UiEntity :=
  match e.parent with
  | none => { e with transform := processRoot sw sh e.transform }
  | some _ => e

/-- Phase A of a layout pass. -/
def rootPhase (sw sh : ℚ) (w : List UiEntity) : List UiEntity :=
  w.map (rootStepE sw sh)

/-- Phase B applied to one entity: an entity with a `Parent` looks the parent
up in the snapshot (`transforms` in the source, collected after phase A); if
found, the child is resolved against the snapshot copy, otherwise the entity
is left untouched. -/
def childStepE (snapshot : List UiEntity) (e : UiEntity) : UiEntity :=
  match e.parent with
  | none => e
  | some p =>
      match snapshot.find? (fun x => x.eid == p) with
      | none => e
      | some pe => { e with transform := processChild pe.transform e.transform }

/-- Phase B of a layout pass.  All parent reads go through the fixed
snapshot, exactly as in the source (which collects `transforms` once before
the child loop). -/
def childPhase (snapshot : List UiEntity) (w : List UiEntity) : List UiEntity :=
  w.map (childStepE snapshot)

/-- One run of `UiTransformSystem`: phase A on the roots, snapshot, phase B on
the children. -/
def layoutPass (sw sh : ℚ) (w : List UiEntity) : List UiEntity :=
  let w1 := rootPhase sw sh w
  childPhase w1 w1

/-- Modelled from the spec: the reference resolver of §4.4 — a strict
depth-first pre-order traversal in which every parent is fully resolved
before any of its children and each child reads its parent's freshly
resolved values.  On a forest, the resolved transform of an entity is
`processRoot` for roots and `processChild` of the parent's resolved
transform for children; `fuel` bounds the recursion depth. -/
def refResolve (sw sh : ℚ) (w : List UiEntity) : Nat → UiEntity → UiTransform
  | fuel, e =>
    match e.parent with
    | none => processRoot sw sh e.transform
    | some p =>
        match w.find? (fun x => x.eid == p) with
        | none => e.transform
        | some pe =>
            match fuel with
            | 0 => e.transform
            | fuel' + 1 => processChild (refResolve sw sh w fuel' pe) e.transform

/-- Modelled from the spec: the full reference layout — every entity receives
its depth-first resolved transform. -/
def refLayout (sw sh : ℚ) (w : List UiEntity) : List UiEntity :=
  w.map fun e => { e with transform := refResolve sw sh w w.length e }

/-- `keep_aspect_ratio` is not used by this stretch. -/
def noKar : Stretch → Bool
  | Stretch.XY _ _ true => false
  | _ => true

/-- Every parented entity's parent (when present in the world) is a root:
the forest has depth at most 1. -/
def parentsAreRoots (w : List UiEntity) : Bool :=
  w.all fun e =>
    match e.parent with
    | none => true
    | some p =>
        match w.find? (fun x => x.eid == p) with
        | none => true
        | some pe => pe.parent == none

/-! ## Blink (`blink.rs`) -/

/-- The `Blink` component (`f32` modelled by `ℚ`). -/
structure Blink where
  delay : ℚ
  timer : ℚ
  absolute_time : Bool
deriving DecidableEq, Repr

/-- The per-entity body of `build_blink_system`: advance the timer by the
scaled (`abs_sec`) or unscaled (`abs_unscaled_sec`) delta according to
`absolute_time`, wrap once past `delay`, then apply the command-buffer
add/remove of the `Hidden` marker.  Returns the updated `Blink` and the new
presence of `Hidden`. -/
def blinkStep (abs_sec abs_unscaled_sec : ℚ) (b : Blink) (hidden : Bool) :
    Blink × Bool :=
  let timer := b.timer + (if b.absolute_time then abs_unscaled_sec else abs_sec)
  let timer := if timer > b.delay then timer - b.delay else timer
  let vis : Bool := timer < b.delay / 2
  let hidden' :=
    match vis, hidden with
    | true, false => true
    | false, true => false
    | _, _ => hidden
  ({ b with timer := timer }, hidden')

/-! ## Concrete scenario inputs -/

/-- The S4 root transform: `anchor=TopLeft, pivot=TopLeft, width=100,
height=50, local_x=10, local_y=20, scale_mode=Pixel, stretch=NoStretch`
(resolved outputs initially zero). -/
def s4Root : UiTransform :=
  { local_x := 10, local_y := 20, local_z := 0, width := 100, height := 50,
    pixel_x := 0, pixel_y := 0, pixel_width := 0, pixel_height := 0, global_z := 0,
    anchor := Anchor.TopLeft, pivot := Anchor.TopLeft,
    stretch := Stretch.NoStretch, scale_mode := ScaleMode.Pixel }

/-- A centred, unstretched pixel-mode transform with the given `local_x`,
`width` and `height` (resolved outputs initially zero). -/
def midT (lx w h : ℚ) : UiTransform :=
  { local_x := lx, local_y := 0, local_z := 0, width := w, height := h,
    pixel_x := 0, pixel_y := 0, pixel_width := 0, pixel_height := 0, global_z := 0,
    anchor := Anchor.Middle, pivot := Anchor.Middle,
    stretch := Stretch.NoStretch, scale_mode := ScaleMode.Pixel }

/-- A three-level chain: root 0, its child 1 (offset 10), and grandchild 2. -/
def chainW : List UiEntity :=
  [ { eid := 0, parent := none, transform := midT 0 2 2 },
    { eid := 1, parent := some 0, transform := midT 10 2 2 },
    { eid := 2, parent := some 1, transform := midT 0 2 2 } ]

/-- A centred transform stretched with `XY{x_margin=8, y_margin=0,
keep_aspect_ratio=true}` on a 1×1 intrinsic size: against an 8×6 screen the
available width `8 − 16 = −8` is negative, so the aspect scale is negative. -/
def karT : UiTransform :=
  { local_x := 0, local_y := 0, local_z := 0, width := 1, height := 1,
    pixel_x := 0, pixel_y := 0, pixel_width := 0, pixel_height := 0, global_z := 0,
    anchor := Anchor.Middle, pivot := Anchor.Middle,
    stretch := Stretch.XY 8 0 true, scale_mode := ScaleMode.Pixel }

/-- World with the single root `karT`. -/
def karW : List UiEntity := [ { eid := 0, parent := none, transform := karT } ]

/-- A transform with `Stretch::X {x_margin: 1}` and intrinsic size 2×2. -/
def stretchXT : UiTransform :=
  { local_x := 0, local_y := 0, local_z := 0, width := 2, height := 2,
    pixel_x := 0, pixel_y := 0, pixel_width := 0, pixel_height := 0, global_z := 0,
    anchor := Anchor.Middle, pivot := Anchor.Middle,
    stretch := Stretch.X 1, scale_mode := ScaleMode.Pixel }

/-- A resolved parent box used for child-phase evaluation. -/
def parentBoxT : UiTransform :=
  { local_x := 0, local_y := 0, local_z := 0, width := 20, height := 10,
    pixel_x := 0, pixel_y := 0, pixel_width := 20, pixel_height := 10, global_z := 0,
    anchor := Anchor.Middle, pivot := Anchor.Middle,
    stretch := Stretch.NoStretch, scale_mode := ScaleMode.Pixel }

/-- A single entity whose `Parent` names entity 5, which has no `UiTransform`
(it is absent from the world). -/
def danglingW : List UiEntity :=
  [ { eid := 0, parent := some 5, transform := midT 3 2 2 } ]

/-- A depth-1 world: root 0 and its direct child 1. -/
def pairW : List UiEntity :=
  [ { eid := 0, parent := none, transform := midT 0 2 2 },
    { eid := 1, parent := some 0, transform := midT 10 2 2 } ]

/-- The S4 world: the single root `s4Root`. -/
def s4W : List UiEntity := [ { eid := 0, parent := none, transform := s4Root } ]

/-! ## Lemmas about the dispatcher builder -/

theorem finalizeExecutor_bundles (d : DData) :
    (finalizeExecutor d).bundles = d.bundles := by
  simp only [finalizeExecutor]
  split <;> rfl

theorem finalizeExecutor_trace (d : DData) :
    (finalizeExecutor d).trace = d.trace := by
  simp only [finalizeExecutor]
  split <;> rfl

theorem finalizeExecutor_accumulator (d : DData) :
    (finalizeExecutor d).accumulator = [] := by
  simp only [finalizeExecutor]
  split
  · next h => exact List.isEmpty_iff.mp h
  · rfl

/-- `load` on a concatenation: process the first list, then (unless it failed)
the second. -/
theorem loadItems_append (a b : List DItem) (d : DData) :
    loadItems (a ++ b) d =
      match loadItems a d with
      | (d', none) => loadItems b d'
      | (d', some e) => (d', some e) := by
  induction a, d using loadItems.induct with
  | case1 d => simp [loadItems]
  | case2 s rest d ih => simp [loadItems, ih]
  | case3 rest d fin ih =>
      simp only [List.cons_append, loadItems]
      exact ih
  | case4 f rest d fin ih =>
      simp only [List.cons_append, loadItems]
      exact ih
  | case5 s rest d fin ih =>
      simp only [List.cons_append, loadItems]
      exact ih
  | case6 bid err tail d => simp [loadItems]
  | case7 bid sub rest d d1 d2 e hsub ih =>
      have hsub' : loadItems sub
          { steps := d.steps, accumulator := d.accumulator, bundles := d.bundles,
            trace := d.trace ++ [BEvent.loadOk bid] } = (d2, some e) := hsub
      simp [loadItems, hsub']
  | case8 bid sub rest d d1 d2 hsub ihsub ihrest =>
      have hsub' : loadItems sub
          { steps := d.steps, accumulator := d.accumulator, bundles := d.bundles,
            trace := d.trace ++ [BEvent.loadOk bid] } = (d2, none) := hsub
      simp [loadItems, hsub', ihrest]

/-- The error result of `load` is exactly the first failing bundle `load` of
the traversal, independent of the accumulated data. -/
theorem loadItems_snd (items : List DItem) (d : DData) :
    (loadItems items d).2 = firstErrB items := by
  induction items, d using loadItems.induct with
  | case1 d => simp [loadItems, firstErrB]
  | case2 s rest d ih => simp [loadItems, firstErrB, ih]
  | case3 rest d fin ih =>
      simp only [firstErrB, loadItems]
      exact ih
  | case4 f rest d fin ih =>
      simp only [firstErrB, loadItems]
      exact ih
  | case5 s rest d fin ih =>
      simp only [firstErrB, loadItems]
      exact ih
  | case6 bid err tail d => simp [loadItems, firstErrB]
  | case7 bid sub rest d d1 d2 e hsub ih =>
      have hsub' : loadItems sub
          { steps := d.steps, accumulator := d.accumulator, bundles := d.bundles,
            trace := d.trace ++ [BEvent.loadOk bid] } = (d2, some e) := hsub
      have h2 : firstErrB sub = some e := by rw [← ih, hsub]
      simp [loadItems, firstErrB, hsub', h2]
  | case8 bid sub rest d d1 d2 hsub ihsub ihrest =>
      have hsub' : loadItems sub
          { steps := d.steps, accumulator := d.accumulator, bundles := d.bundles,
            trace := d.trace ++ [BEvent.loadOk bid] } = (d2, none) := hsub
      have h2 : firstErrB sub = none := by rw [← ihsub, hsub]
      simp [loadItems, firstErrB, hsub', h2, ihrest]

theorem loadOks_append (a b : List BEvent) :
    loadOks (a ++ b) = loadOks a ++ loadOks b := by
  simp [loadOks, List.filterMap_append]

/-- On success, `load` appends the traversed bundles to `bundles` in
post-order (nested bundles before their enclosing bundle) and records the
`loadOk` events in pre-order (an enclosing bundle's `load` returns first). -/
theorem loadItems_ok_spec (items : List DItem) (d : DData) :
    ∀ d', loadItems items d = (d', none) →
      d'.bundles = d.bundles ++ postOrderB items ∧
      loadOks d'.trace = loadOks d.trace ++ preOrderB items := by
  induction items, d using loadItems.induct with
  | case1 d =>
      intro d' h
      simp only [loadItems, Prod.mk.injEq] at h
      simp [← h.1, postOrderB, preOrderB]
  | case2 s rest d ih =>
      intro d' h
      simp only [loadItems] at h
      simpa [postOrderB, preOrderB] using ih d' h
  | case3 rest d fin ih =>
      intro d' h
      simp only [loadItems] at h
      have hb : fin.bundles = d.bundles := finalizeExecutor_bundles d
      have ht : fin.trace = d.trace := finalizeExecutor_trace d
      have := ih d' h
      simpa [postOrderB, preOrderB, hb, ht] using this
  | case4 f rest d fin ih =>
      intro d' h
      simp only [loadItems] at h
      have hb : fin.bundles = d.bundles := finalizeExecutor_bundles d
      have ht : fin.trace = d.trace := finalizeExecutor_trace d
      have := ih d' h
      simpa [postOrderB, preOrderB, hb, ht] using this
  | case5 s rest d fin ih =>
      intro d' h
      simp only [loadItems] at h
      have hb : fin.bundles = d.bundles := finalizeExecutor_bundles d
      have ht : fin.trace = d.trace := finalizeExecutor_trace d
      have := ih d' h
      simpa [postOrderB, preOrderB, hb, ht] using this
  | case6 bid err tail d =>
      intro d' h
      simp only [loadItems, Prod.mk.injEq] at h
      exact absurd h.2 (by simp)
  | case7 bid sub rest d d1 d2 e hsub ih =>
      intro d' h
      have hsub' : loadItems sub
          { steps := d.steps, accumulator := d.accumulator, bundles := d.bundles,
            trace := d.trace ++ [BEvent.loadOk bid] } = (d2, some e) := hsub
      simp only [loadItems, hsub', Prod.mk.injEq] at h
      exact absurd h.2 (by simp)
  | case8 bid sub rest d d1 d2 hsub ihsub ihrest =>
      intro d' h
      have hsub' : loadItems sub
          { steps := d.steps, accumulator := d.accumulator, bundles := d.bundles,
            trace := d.trace ++ [BEvent.loadOk bid] } = (d2, none) := hsub
      simp only [loadItems, hsub'] at h
      have h2 := ihsub d2 hsub
      have h3 := ihrest d' h
      simp only at h2 h3
      constructor
      · rw [h3.1]
        simp only [h2.1]
        simp [postOrderB, List.append_assoc]
      · rw [h3.2]
        simp only [h2.2]
        simp [preOrderB, loadOks_append, loadOks, List.append_assoc]

/-- The load path never emits an `unload` event. -/
theorem loadItems_no_unload (items : List DItem) (d : DData) :
    (∀ e ∈ d.trace, e.isUnload = false) →
      ∀ e ∈ (loadItems items d).1.trace, e.isUnload = false := by
  induction items, d using loadItems.induct with
  | case1 d => intro h; simpa [loadItems] using h
  | case2 s rest d ih =>
      intro h
      simp only [loadItems]
      exact ih h
  | case3 rest d fin ih =>
      intro h
      simp only [loadItems]
      have ht : fin.trace = d.trace := finalizeExecutor_trace d
      exact ih (by simpa [ht] using h)
  | case4 f rest d fin ih =>
      intro h
      simp only [loadItems]
      have ht : fin.trace = d.trace := finalizeExecutor_trace d
      exact ih (by simpa [ht] using h)
  | case5 s rest d fin ih =>
      intro h
      simp only [loadItems]
      have ht : fin.trace = d.trace := finalizeExecutor_trace d
      exact ih (by simpa [ht] using h)
  | case6 bid err tail d =>
      intro h
      simp only [loadItems]
      intro e he
      simp only [List.mem_append, List.mem_singleton] at he
      rcases he with he | he
      · exact h e he
      · simp [he, BEvent.isUnload]
  | case7 bid sub rest d d1 d2 e hsub ih =>
      intro h
      have hsub' : loadItems sub
          { steps := d.steps, accumulator := d.accumulator, bundles := d.bundles,
            trace := d.trace ++ [BEvent.loadOk bid] } = (d2, some e) := hsub
      simp only [loadItems, hsub']
      have hpre : ∀ ev ∈ (d.trace ++ [BEvent.loadOk bid]), ev.isUnload = false := by
        intro ev hev
        simp only [List.mem_append, List.mem_singleton] at hev
        rcases hev with hev | hev
        · exact h ev hev
        · simp [hev, BEvent.isUnload]
      have := ih hpre
      rw [hsub] at this
      exact this
  | case8 bid sub rest d d1 d2 hsub ihsub ihrest =>
      intro h
      have hsub' : loadItems sub
          { steps := d.steps, accumulator := d.accumulator, bundles := d.bundles,
            trace := d.trace ++ [BEvent.loadOk bid] } = (d2, none) := hsub
      simp only [loadItems, hsub']
      have hpre : ∀ ev ∈ (d.trace ++ [BEvent.loadOk bid]), ev.isUnload = false := by
        intro ev hev
        simp only [List.mem_append, List.mem_singleton] at hev
        rcases hev with hev | hev
        · exact h ev hev
        · simp [hev, BEvent.isUnload]
      have h2 := ihsub hpre
      rw [hsub] at h2
      exact ihrest h2

theorem postOrderB_append (a b : List DItem) :
    postOrderB (a ++ b) = postOrderB a ++ postOrderB b := by
  induction a with
  | nil => simp [postOrderB]
  | cons i rest ih => cases i <;> simp [postOrderB, ih]

theorem preOrderB_append (a b : List DItem) :
    preOrderB (a ++ b) = preOrderB a ++ preOrderB b := by
  induction a with
  | nil => simp [preOrderB]
  | cons i rest ih => cases i <;> simp [preOrderB, ih]

theorem bundleFree_append (a b : List DItem) :
    bundleFree (a ++ b) = (bundleFree a && bundleFree b) := by
  induction a with
  | nil => simp [bundleFree]
  | cons i rest ih => cases i <;> simp [bundleFree, ih]

theorem firstErrB_concat_flush (a : List DItem) :
    firstErrB (a ++ [DItem.flushCmdBuffers]) = firstErrB a := by
  induction a with
  | nil => simp [firstErrB]
  | cons i rest ih => cases i <;> simp [firstErrB, ih]

/-- `postOrderB` is a permutation of `preOrderB`: the same bundles, each
exactly once, in a different order. -/
theorem postOrderB_perm_preOrderB (l : List DItem) :
    (postOrderB l).Perm (preOrderB l) := by
  induction l using postOrderB.induct with
  | case1 => simp [postOrderB, preOrderB]
  | case2 bid sub rest ihsub ihrest =>
      simp only [postOrderB, preOrderB]
      have h1 : ((postOrderB sub ++ [bid]) ++ postOrderB rest).Perm
          ((bid :: postOrderB sub) ++ postOrderB rest) :=
        List.Perm.append_right _ (List.perm_append_singleton bid (postOrderB sub))
      refine h1.trans ?_
      simp only [List.cons_append]
      exact List.Perm.cons bid (ihsub.append ihrest)
  | case3 i rest hne ih =>
      cases i <;> simp_all [postOrderB, preOrderB]

theorem lastExec_concat (l : List Step) (s : Step) :
    lastExec (l ++ [s]) = s.isExec := by
  simp [lastExec, List.getLast?_concat]

theorem execsNonempty_append (a b : List Step) :
    execsNonempty (a ++ b) = (execsNonempty a && execsNonempty b) := by
  induction a with
  | nil => simp [execsNonempty]
  | cons s rest ih => cases s <;> simp [execsNonempty, ih, Bool.and_assoc]

theorem noAdjExec_concat : ∀ (l : List Step) (s : Step),
    noAdjExec (l ++ [s]) = (noAdjExec l && !(lastExec l && s.isExec))
  | [], s => by simp [noAdjExec, lastExec]
  | [a], s => by simp [noAdjExec, lastExec, Bool.and_comm]
  | a :: b :: t, s => by
      have ih := noAdjExec_concat (b :: t) s
      simp only [List.cons_append] at ih ⊢
      simp only [noAdjExec, ih]
      have hlast : lastExec (a :: b :: t) = lastExec (b :: t) := by
        simp [lastExec]
      rw [hlast, Bool.and_assoc]

/-- Closing the pending group and appending a non-`Executor` step preserves
the schedule-shape invariant. -/
theorem goodSteps_push (d : DData) (s : Step) (hs : s.isExec = false)
    (h : goodSteps d.steps = true) :
    goodSteps ((finalizeExecutor d).steps ++ [s]) = true := by
  simp only [goodSteps, Bool.and_eq_true, Bool.not_eq_true'] at h
  obtain ⟨⟨h1, h2⟩, h3⟩ := h
  by_cases hacc : d.accumulator.isEmpty
  · have hone : execsNonempty [s] = true := by
      cases s <;> simp_all [execsNonempty, Step.isExec]
    simp [goodSteps, finalizeExecutor, hacc, noAdjExec_concat, execsNonempty_append,
      lastExec_concat, hs, h1, h2, h3, hone]
  · simp only [finalizeExecutor, hacc, if_false]
    simp only [goodSteps, List.append_assoc, List.singleton_append]
    have hA : noAdjExec (d.steps ++ [Step.systems d.accumulator, s]) = true := by
      have e1 : d.steps ++ [Step.systems d.accumulator, s]
          = (d.steps ++ [Step.systems d.accumulator]) ++ [s] := by simp
      rw [e1, noAdjExec_concat, noAdjExec_concat]
      simp [h1, h3, lastExec_concat, hs]
    have hB : execsNonempty (d.steps ++ [Step.systems d.accumulator, s]) = true := by
      have e2 : execsNonempty [Step.systems d.accumulator, s] = true := by
        cases s <;> simp_all [execsNonempty, Step.isExec, hacc]
      simp [execsNonempty_append, h2, e2]
    have hC : lastExec (d.steps ++ [Step.systems d.accumulator, s]) = false := by
      have e1 : d.steps ++ [Step.systems d.accumulator, s]
          = (d.steps ++ [Step.systems d.accumulator]) ++ [s] := by simp
      rw [e1, lastExec_concat, hs]
    simp [hA, hB, hC]

/-- `DispatcherBuilder::load` maintains the schedule-shape invariant: no
adjacent `Executor`s, non-empty `Executor` groups, and the step list never
ends in a bare `Executor`. -/
theorem loadItems_goodSteps (items : List DItem) (d : DData) :
    goodSteps d.steps = true → goodSteps (loadItems items d).1.steps = true := by
  induction items, d using loadItems.induct with
  | case1 d => intro h; simpa [loadItems] using h
  | case2 s rest d ih =>
      intro h
      simp only [loadItems]
      exact ih h
  | case3 rest d fin ih =>
      intro h
      simp only [loadItems]
      exact ih (goodSteps_push d Step.flushCmdBuffers rfl h)
  | case4 f rest d fin ih =>
      intro h
      simp only [loadItems]
      exact ih (goodSteps_push d (Step.threadLocalFn f) rfl h)
  | case5 s rest d fin ih =>
      intro h
      simp only [loadItems]
      exact ih (goodSteps_push d (Step.threadLocalSystem s) rfl h)
  | case6 bid err tail d =>
      intro h
      simpa [loadItems] using h
  | case7 bid sub rest d d1 d2 e hsub ih =>
      intro h
      have hsub' : loadItems sub
          { steps := d.steps, accumulator := d.accumulator, bundles := d.bundles,
            trace := d.trace ++ [BEvent.loadOk bid] } = (d2, some e) := hsub
      simp only [loadItems, hsub']
      have h2 := ih h
      rw [hsub'] at h2
      exact h2
  | case8 bid sub rest d d1 d2 hsub ihsub ihrest =>
      intro h
      have hsub' : loadItems sub
          { steps := d.steps, accumulator := d.accumulator, bundles := d.bundles,
            trace := d.trace ++ [BEvent.loadOk bid] } = (d2, none) := hsub
      simp only [loadItems, hsub']
      have h2 := ihsub h
      rw [hsub'] at h2
      exact ihrest h2

theorem flattenSteps_append (a b : List Step) :
    flattenSteps (a ++ b) = flattenSteps a ++ flattenSteps b := by
  simp [flattenSteps, List.flatMap_append]

theorem flattenSteps_finalize (d : DData) :
    flattenSteps (finalizeExecutor d).steps
      = flattenSteps d.steps ++ d.accumulator.map DItem.system := by
  simp only [finalizeExecutor]
  split
  · next h => simp [List.isEmpty_iff.mp h]
  · simp [flattenSteps, List.flatMap_append, flattenStep]

/-- On a bundle-free item list, `load` never fails, touches no bundles, and
the emitted steps flattened back to items (with the still-pending accumulator
appended) reproduce the input items in order. -/
theorem loadItems_bundleFree_spec (items : List DItem) : ∀ (d : DData),
    bundleFree items = true →
    (loadItems items d).2 = none ∧
    (loadItems items d).1.bundles = d.bundles ∧
    flattenSteps (loadItems items d).1.steps
        ++ (loadItems items d).1.accumulator.map DItem.system
      = flattenSteps d.steps ++ d.accumulator.map DItem.system ++ items := by
  induction items with
  | nil => intro d h; simp [loadItems]
  | cons i rest ih =>
      intro d h
      cases i with
      | system s =>
          have ihr := ih { d with accumulator := d.accumulator ++ [s] }
            (by simpa [bundleFree] using h)
          simp only [loadItems]
          refine ⟨ihr.1, ihr.2.1, ?_⟩
          rw [ihr.2.2]
          simp
      | flushCmdBuffers =>
          have ihr := ih { finalizeExecutor d with
              steps := (finalizeExecutor d).steps ++ [Step.flushCmdBuffers] }
            (by simpa [bundleFree] using h)
          simp only [loadItems]
          refine ⟨ihr.1, by rw [ihr.2.1, finalizeExecutor_bundles], ?_⟩
          rw [ihr.2.2]
          have hf := flattenSteps_finalize d
          simp only [flattenSteps] at hf
          simp [flattenSteps_append, finalizeExecutor_accumulator, flattenSteps, flattenStep, hf]
      | threadLocalFn f =>
          have ihr := ih { finalizeExecutor d with
              steps := (finalizeExecutor d).steps ++ [Step.threadLocalFn f] }
            (by simpa [bundleFree] using h)
          simp only [loadItems]
          refine ⟨ihr.1, by rw [ihr.2.1, finalizeExecutor_bundles], ?_⟩
          rw [ihr.2.2]
          have hf := flattenSteps_finalize d
          simp only [flattenSteps] at hf
          simp [flattenSteps_append, finalizeExecutor_accumulator, flattenSteps, flattenStep, hf]
      | threadLocalSystem s =>
          have ihr := ih { finalizeExecutor d with
              steps := (finalizeExecutor d).steps ++ [Step.threadLocalSystem s] }
            (by simpa [bundleFree] using h)
          simp only [loadItems]
          refine ⟨ihr.1, by rw [ihr.2.1, finalizeExecutor_bundles], ?_⟩
          rw [ihr.2.2]
          have hf := flattenSteps_finalize d
          simp only [flattenSteps] at hf
          simp [flattenSteps_append, finalizeExecutor_accumulator, flattenSteps, flattenStep, hf]
      | bundleFail bid err => simp [bundleFree] at h
      | bundleOk bid sub => simp [bundleFree] at h

/-- Processing the implicit trailing flush after a successful `load`. -/
theorem loadItems_trailing_flush (items : List DItem) (d0 : DData)
    (h : loadItems items {} = (d0, none)) :
    loadItems (items ++ [DItem.flushCmdBuffers]) {} =
      ({ finalizeExecutor d0 with
          steps := (finalizeExecutor d0).steps ++ [Step.flushCmdBuffers] }, none) := by
  rw [loadItems_append, h]
  simp [loadItems]

/-! ## Claim theorems: dispatcher -/

/-- C1, counterexample: the builder inserts no `FlushBarrier` between an
`Executor` and a following thread-local step.  Building from one parallel
system followed by one thread-local function yields the schedule
`[Executor([0]), ThreadLocalFn(1), FlushBarrier]`, in which the thread-local
step immediately follows the `Executor` — the claimed barrier-placement
invariant is false for this schedule. -/
theorem c1_barrier_claim_cex :
    buildD [DItem.system 0, DItem.threadLocalFn 1] =
      Except.ok { schedule := [Step.systems [0], Step.threadLocalFn 1, Step.flushCmdBuffers],
                  bundles := [] } ∧
    barrierPlacement
      [Step.systems [0], Step.threadLocalFn 1, Step.flushCmdBuffers] = false :=
  ⟨by simp [buildD, loadItems, finalizeExecutor], by rfl⟩

/-- C1, amended: closing a pending parallel group because of a thread-local
item emits the thread-local step directly after the `Executor`, with no
intervening `FlushBarrier`; what does hold of every built schedule is that no
two `Executor` steps are adjacent, every `Executor` group is non-empty, and
the schedule ends with the implicit trailing `FlushBarrier`. -/
theorem c1_barrier_amended (items : List DItem) (disp : Dispatcher)
    (h : buildD items = Except.ok disp) :
    noAdjExec disp.schedule = true ∧ execsNonempty disp.schedule = true ∧
    disp.schedule.getLast? = some Step.flushCmdBuffers := by
  rcases h0 : loadItems items {} with ⟨d0, r0⟩
  cases r0 with
  | some e =>
      have hfull : loadItems (items ++ [DItem.flushCmdBuffers]) {} = (d0, some e) := by
        rw [loadItems_append, h0]
      unfold buildD at h
      rw [hfull] at h
      exact absurd h (by simp)
  | none =>
      have hfull := loadItems_trailing_flush items d0 h0
      unfold buildD at h
      rw [hfull] at h
      simp only [Except.ok.injEq] at h
      have hgood := loadItems_goodSteps (items ++ [DItem.flushCmdBuffers]) {} (by rfl)
      rw [hfull] at hgood
      simp only [goodSteps, Bool.and_eq_true, Bool.not_eq_true'] at hgood
      rw [← h]
      exact ⟨hgood.1.1, hgood.1.2, List.getLast?_concat _⟩

/-- C1 amended, witness: the empty builder yields the schedule
`[FlushBarrier]`, which satisfies the amended invariant. -/
theorem c1_barrier_amended_witness :
    buildD ([] : List DItem) =
        Except.ok { schedule := [Step.flushCmdBuffers], bundles := [] } ∧
      (noAdjExec ({ schedule := [Step.flushCmdBuffers], bundles := [] } : Dispatcher).schedule
          = true ∧
        execsNonempty
            ({ schedule := [Step.flushCmdBuffers], bundles := [] } : Dispatcher).schedule
          = true ∧
        ({ schedule := [Step.flushCmdBuffers], bundles := [] } : Dispatcher).schedule.getLast?
          = some Step.flushCmdBuffers) :=
  ⟨by simp [buildD, loadItems, finalizeExecutor],
    c1_barrier_amended [] _ (by simp [buildD, loadItems, finalizeExecutor])⟩

/-- C3: for every bundle-free item sequence, `build` succeeds with no retained
bundles, the schedule flattened back to items reproduces the input sequence
followed by the implicit trailing flush (relative order is preserved), no two
`Executor` steps are adjacent and every `Executor` group is non-empty (each
maximal run of consecutive parallel systems becomes exactly one `Executor`);
concretely, A, B, flush, C, D builds
`[Executor(A,B), FlushBarrier, Executor(C,D), FlushBarrier]`. -/
theorem c3_order_preservation_fusion (items : List DItem)
    (h : bundleFree items = true) :
    (∃ steps, buildD items = Except.ok { schedule := steps, bundles := [] } ∧
      flattenSteps steps = items ++ [DItem.flushCmdBuffers] ∧
      noAdjExec steps = true ∧ execsNonempty steps = true) ∧
    buildD [DItem.system 0, DItem.system 1, DItem.flushCmdBuffers,
            DItem.system 2, DItem.system 3] =
      Except.ok { schedule := [Step.systems [0, 1], Step.flushCmdBuffers,
                               Step.systems [2, 3], Step.flushCmdBuffers],
                  bundles := [] } := by
  constructor
  · have hL : bundleFree (items ++ [DItem.flushCmdBuffers]) = true := by
      rw [bundleFree_append, h]
      rfl
    rcases h0 : loadItems items {} with ⟨d0, r0⟩
    have hfree0 := loadItems_bundleFree_spec items {} h
    rw [h0] at hfree0
    cases r0 with
    | some e => exact absurd hfree0.1 (by simp)
    | none =>
        have hfull := loadItems_trailing_flush items d0 h0
        have hfree := loadItems_bundleFree_spec (items ++ [DItem.flushCmdBuffers]) {} hL
        rw [hfull] at hfree
        have hgood := loadItems_goodSteps (items ++ [DItem.flushCmdBuffers]) {} (by rfl)
        rw [hfull] at hgood
        simp only [goodSteps, Bool.and_eq_true, Bool.not_eq_true'] at hgood
        refine ⟨(finalizeExecutor d0).steps ++ [Step.flushCmdBuffers], ?_, ?_, hgood.1.1,
          hgood.1.2⟩
        · unfold buildD
          rw [hfull]
          have hb := hfree.2.1
          simp only at hb
          simp [hb]
        · have hflat := hfree.2.2
          simp only [finalizeExecutor_accumulator, List.map_nil, List.append_nil,
            flattenSteps] at hflat
          simpa [flattenSteps] using hflat
  · simp [buildD, loadItems, finalizeExecutor]

/-- C3, witness: a concrete bundle-free sequence. -/
theorem c3_order_preservation_fusion_witness :
    bundleFree [DItem.system 5, DItem.threadLocalFn 6] = true ∧
    ((∃ steps, buildD [DItem.system 5, DItem.threadLocalFn 6] =
        Except.ok { schedule := steps, bundles := [] } ∧
      flattenSteps steps
          = [DItem.system 5, DItem.threadLocalFn 6] ++ [DItem.flushCmdBuffers] ∧
      noAdjExec steps = true ∧ execsNonempty steps = true) ∧
    buildD [DItem.system 0, DItem.system 1, DItem.flushCmdBuffers,
            DItem.system 2, DItem.system 3] =
      Except.ok { schedule := [Step.systems [0, 1], Step.flushCmdBuffers,
                               Step.systems [2, 3], Step.flushCmdBuffers],
                  bundles := [] }) :=
  ⟨by rfl, c3_order_preservation_fusion [DItem.system 5, DItem.threadLocalFn 6] (by rfl)⟩

/-- C4, counterexample: with a nested bundle (bundle 1 whose `load` registers
bundle 2), the loads succeed in the order `[1, 2]` — the outer `load` returns
`Ok` before the nested bundle is loaded — but `Dispatcher::unload` invokes the
unloads in vector order `[2, 1]`: not the order the loads succeeded. -/
theorem c4_unload_order_cex :
    buildD [DItem.bundleOk 1 [DItem.bundleOk 2 []]] =
      Except.ok { schedule := [Step.flushCmdBuffers], bundles := [2, 1] } ∧
    loadOks (buildTrace [DItem.bundleOk 1 [DItem.bundleOk 2 []]]) = [1, 2] ∧
    unloadCalls { schedule := [Step.flushCmdBuffers], bundles := [2, 1] } =
      [BEvent.unload 2, BEvent.unload 1] ∧
    ([BEvent.unload 2, BEvent.unload 1] : List BEvent) ≠
      [BEvent.unload 1, BEvent.unload 2] :=
  ⟨by simp [buildD, loadItems, finalizeExecutor],
    by simp [buildTrace, loadItems, finalizeExecutor, loadOks],
    by rfl, by decide⟩

/-- C4, amended: for every successful build, `unload` is invoked exactly once
on every bundle whose load succeeded, but in post-order — each nested bundle
before its enclosing bundle — which is a permutation of the load-success
(pre-)order and coincides with it when no bundle nests further bundles. -/
theorem c4_unload_amended (items : List DItem) (disp : Dispatcher)
    (h : buildD items = Except.ok disp) :
    unloadCalls disp = (postOrderB items).map BEvent.unload ∧
    (postOrderB items).Perm (preOrderB items) ∧
    loadOks (buildTrace items) = preOrderB items := by
  rcases h0 : loadItems (items ++ [DItem.flushCmdBuffers]) {} with ⟨d, r⟩
  cases r with
  | some e =>
      unfold buildD at h
      rw [h0] at h
      exact absurd h (by simp)
  | none =>
      unfold buildD at h
      rw [h0] at h
      simp only [Except.ok.injEq] at h
      have hs := loadItems_ok_spec (items ++ [DItem.flushCmdBuffers]) {} d h0
      have hpost : postOrderB (items ++ [DItem.flushCmdBuffers]) = postOrderB items := by
        rw [postOrderB_append]
        simp [postOrderB]
      have hpre : preOrderB (items ++ [DItem.flushCmdBuffers]) = preOrderB items := by
        rw [preOrderB_append]
        simp [preOrderB]
      refine ⟨?_, postOrderB_perm_preOrderB items, ?_⟩
      · rw [← h]
        simp only [unloadCalls]
        rw [hs.1]
        simp [hpost]
      · simp only [buildTrace]
        rw [h0]
        have := hs.2
        simp only at this
        rw [this, hpre]
        simp [loadOks]

/-- C4 amended, witness: one flat bundle — unload order equals load order. -/
theorem c4_unload_amended_witness :
    buildD [DItem.bundleOk 7 []] =
        Except.ok { schedule := [Step.flushCmdBuffers], bundles := [7] } ∧
      (unloadCalls { schedule := [Step.flushCmdBuffers], bundles := [7] } =
          (postOrderB [DItem.bundleOk 7 []]).map BEvent.unload ∧
        (postOrderB [DItem.bundleOk 7 []]).Perm (preOrderB [DItem.bundleOk 7 []]) ∧
        loadOks (buildTrace [DItem.bundleOk 7 []]) = preOrderB [DItem.bundleOk 7 []]) :=
  ⟨by simp [buildD, loadItems, finalizeExecutor],
    c4_unload_amended [DItem.bundleOk 7 []] _ (by simp [buildD, loadItems, finalizeExecutor])⟩

/-- C5: if some bundle's `load` fails during `build`, then `build` returns
exactly that (first) error — no `Dispatcher` is produced — and no `unload` is
ever invoked during the build, in particular not on the bundles that had
already loaded successfully. -/
theorem c5_build_failure (items : List DItem) (e : Nat)
    (h : firstErrB items = some e) :
    buildD items = Except.error e ∧
    ∀ ev ∈ buildTrace items, ev.isUnload = false := by
  have h2 : (loadItems (items ++ [DItem.flushCmdBuffers]) {}).2 = some e := by
    rw [loadItems_snd, firstErrB_concat_flush, h]
  constructor
  · unfold buildD
    rcases h0 : loadItems (items ++ [DItem.flushCmdBuffers]) {} with ⟨d, r⟩
    rw [h0] at h2
    simp only at h2
    rw [h2]
  · exact loadItems_no_unload _ _ (by simp)

/-- C5, witness: bundle 1 loads, then bundle 2 fails with error 9. -/
theorem c5_build_failure_witness :
    firstErrB [DItem.bundleOk 1 [], DItem.bundleFail 2 9] = some 9 ∧
    (buildD [DItem.bundleOk 1 [], DItem.bundleFail 2 9] = Except.error 9 ∧
      ∀ ev ∈ buildTrace [DItem.bundleOk 1 [], DItem.bundleFail 2 9],
        ev.isUnload = false) :=
  ⟨by simp [firstErrB], c5_build_failure [DItem.bundleOk 1 [], DItem.bundleFail 2 9] 9
    (by simp [firstErrB])⟩


/-! ## Lemmas about the layout resolver -/

theorem rootStepE_eid (sw sh : ℚ) (e : UiEntity) :
    (rootStepE sw sh e).eid = e.eid := by
  cases hp : e.parent <;> simp [rootStepE, hp]

theorem rootStepE_parent (sw sh : ℚ) (e : UiEntity) :
    (rootStepE sw sh e).parent = e.parent := by
  cases hp : e.parent <;> simp [rootStepE, hp]

theorem childStepE_eid (s : List UiEntity) (e : UiEntity) :
    (childStepE s e).eid = e.eid := by
  cases hp : e.parent with
  | none => simp [childStepE, hp]
  | some p =>
      cases hf : s.find? (fun x => x.eid == p) <;> simp [childStepE, hp, hf]

theorem childStepE_parent (s : List UiEntity) (e : UiEntity) :
    (childStepE s e).parent = e.parent := by
  cases hp : e.parent with
  | none => simp [childStepE, hp]
  | some p =>
      cases hf : s.find? (fun x => x.eid == p) <;> simp [childStepE, hp, hf]

/-- `find?` by entity id commutes with mapping an id-preserving function. -/
theorem find?_map_eid (f : UiEntity → UiEntity) (hf : ∀ x, (f x).eid = x.eid)
    (w : List UiEntity) (p : Nat) :
    (w.map f).find? (fun x => x.eid == p)
      = (w.find? (fun x => x.eid == p)).map f := by
  induction w with
  | nil => rfl
  | cons a rest ih =>
      simp only [List.map_cons, List.find?]
      rw [hf a]
      cases ha : (a.eid == p) with
      | true => rfl
      | false => simpa using ih

theorem parentsAreRoots_spec (w : List UiEntity) (h : parentsAreRoots w = true) :
    ∀ e ∈ w, ∀ p, e.parent = some p →
      ∀ pe, w.find? (fun x => x.eid == p) = some pe → pe.parent = none := by
  intro e he p hp pe hpe
  have h2 := (List.all_eq_true.mp h) e he
  rw [hp] at h2
  simp only at h2
  rw [hpe] at h2
  simpa using h2

/-- A layout pass is the per-entity composite of the root step and the child
step reading the phase-A snapshot. -/
theorem layoutPass_eq_map (sw sh : ℚ) (w : List UiEntity) :
    layoutPass sw sh w
      = w.map (fun e => childStepE (rootPhase sw sh w) (rootStepE sw sh e)) := by
  simp [layoutPass, childPhase, rootPhase, List.map_map]

/-- The root resolver is idempotent on transforms that do not use
`keep_aspect_ratio` (all other stretch modes resolve `width`/`height` to
values that are fixed under a second application). -/
theorem processRoot_idem (sw sh : ℚ) (t : UiTransform)
    (h : noKar t.stretch = true) :
    processRoot sw sh (processRoot sw sh t) = processRoot sw sh t := by
  cases t with
  | mk lx ly lz wd ht px py pw ph gz a piv st sm =>
      cases st with
      | NoStretch => cases sm <;> simp [processRoot, noKar]
      | X xm => cases sm <;> simp [processRoot, noKar]
      | Y ym => cases sm <;> simp [processRoot, noKar]
      | XY xm ym kar =>
          cases kar with
          | false => cases sm <;> simp [processRoot, noKar]
          | true => simp [noKar] at h

/-- The child resolver against a fixed parent box is idempotent on transforms
that do not use `keep_aspect_ratio`. -/
theorem processChild_idem (pt t : UiTransform) (h : noKar t.stretch = true) :
    processChild pt (processChild pt t) = processChild pt t := by
  cases t with
  | mk lx ly lz wd ht px py pw ph gz a piv st sm =>
      cases st with
      | NoStretch => cases sm <;> simp [processChild, noKar]
      | X xm => cases sm <;> simp [processChild, noKar]
      | Y ym => cases sm <;> simp [processChild, noKar]
      | XY xm ym kar =>
          cases kar with
          | false => cases sm <;> simp [processChild, noKar]
          | true => simp [noKar] at h


theorem setTransform_parent (e : UiEntity) (t : UiTransform) :
    ({ e with transform := t } : UiEntity).parent = e.parent := rfl

theorem setTransform_set (e : UiEntity) (t t2 : UiTransform) :
    ({ ({ e with transform := t } : UiEntity) with transform := t2 } : UiEntity)
      = { e with transform := t2 } := rfl

theorem rootStepE_of_root (sw sh : ℚ) (x : UiEntity) (hx : x.parent = none) :
    rootStepE sw sh x = { x with transform := processRoot sw sh x.transform } := by
  simp [rootStepE, hx]

theorem rootStepE_of_child (sw sh : ℚ) (x : UiEntity) (p : Nat)
    (hx : x.parent = some p) : rootStepE sw sh x = x := by
  simp [rootStepE, hx]

theorem childStepE_of_root (s : List UiEntity) (x : UiEntity)
    (hx : x.parent = none) : childStepE s x = x := by
  simp [childStepE, hx]

theorem childStepE_of_found (s : List UiEntity) (x : UiEntity) (p : Nat)
    (pe : UiEntity) (hx : x.parent = some p)
    (hf : s.find? (fun y => y.eid == p) = some pe) :
    childStepE s x = { x with transform := processChild pe.transform x.transform } := by
  simp [childStepE, hx, hf]

theorem childStepE_of_missing (s : List UiEntity) (x : UiEntity) (p : Nat)
    (hx : x.parent = some p)
    (hf : s.find? (fun y => y.eid == p) = none) :
    childStepE s x = x := by
  simp [childStepE, hx, hf]


theorem setTransform_transform (e : UiEntity) (t : UiTransform) :
    ({ e with transform := t } : UiEntity).transform = t := rfl

theorem rootStepE_transform_of_root (sw sh : ℚ) (x : UiEntity)
    (hx : x.parent = none) :
    (rootStepE sw sh x).transform = processRoot sw sh x.transform := by
  rw [rootStepE_of_root sw sh x hx]


/-! ## Claim theorems: layout and blink -/

/-- C2, counterexample: on the three-level chain root 0 → child 1 →
grandchild 2, the single-pass resolver leaves the grandchild at
`pixel_x = 0` (it reads its parent's stale snapshot value), while the strict
depth-first pre-order reference resolves it to `pixel_x = 14`; the resolved
states differ. -/
theorem c2_dfs_refinement_cex :
    (layoutPass 8 6 chainW).map (fun e => e.transform.pixel_x) = [4, 14, 0] ∧
    (refLayout 8 6 chainW).map (fun e => e.transform.pixel_x) = [4, 14, 14] ∧
    layoutPass 8 6 chainW ≠ refLayout 8 6 chainW := by
  have h1 : (layoutPass 8 6 chainW).map (fun e => e.transform.pixel_x) = [4, 14, 0] := by
    simp [layoutPass, rootPhase, childPhase, rootStepE, childStepE, chainW, midT,
      processRoot, processChild, Anchor.norm_offset, List.find?]
    norm_num
  have h2 : (refLayout 8 6 chainW).map (fun e => e.transform.pixel_x) = [4, 14, 14] := by
    simp [refLayout, refResolve, chainW, midT, processRoot, processChild,
      Anchor.norm_offset, List.find?]
    norm_num
  refine ⟨h1, h2, fun heq => ?_⟩
  rw [heq, h2] at h1
  norm_num at h1

/-- C2, amended: the snapshot taken after the root phase only contains fresh
values for roots, so the resolved state equals the depth-first pre-order
reference exactly when every parented entity's parent is a root (forest depth
at most 1); for such hierarchies the child reads its parent's freshly
resolved value from the snapshot, as the reference does. -/
theorem c2_dfs_refinement_amended (sw sh : ℚ) (w : List UiEntity)
    (hroots : parentsAreRoots w = true) :
    layoutPass sw sh w = refLayout sw sh w := by
  rw [layoutPass_eq_map]
  unfold refLayout
  apply List.map_congr_left
  intro e he
  cases hp : e.parent with
  | none =>
      have hre : rootStepE sw sh e = { e with transform := processRoot sw sh e.transform } := by
        simp [rootStepE, hp]
      rw [hre]
      have hpn : ({ e with transform := processRoot sw sh e.transform } : UiEntity).parent
          = none := hp
      simp [childStepE, hpn, refResolve, hp]
  | some p =>
      have hre : rootStepE sw sh e = e := by simp [rootStepE, hp]
      rw [hre]
      have hfm := find?_map_eid (rootStepE sw sh) (rootStepE_eid sw sh) w p
      cases hf : w.find? (fun x => x.eid == p) with
      | none =>
          simp [childStepE, hp, rootPhase, hfm, hf, refResolve]
          cases e with
          | mk a b c => simp_all
      | some pe =>
          have hpe : pe.parent = none := parentsAreRoots_spec w hroots e he p hp pe hf
          obtain ⟨n, hn⟩ : ∃ n, w.length = n + 1 := by
            cases w with
            | nil => cases he
            | cons a rest => exact ⟨rest.length, rfl⟩
          have hrpe : rootStepE sw sh pe
              = { pe with transform := processRoot sw sh pe.transform } := by
            simp [rootStepE, hpe]
          simp [childStepE, hp, rootPhase, hfm, hf, hn, refResolve, hpe, hrpe]

/-- C2 amended, witness: a concrete depth-1 hierarchy. -/
theorem c2_dfs_refinement_amended_witness :
    parentsAreRoots pairW = true ∧ layoutPass 8 6 pairW = refLayout 8 6 pairW :=
  ⟨by rfl, c2_dfs_refinement_amended 8 6 pairW (by rfl)⟩

/-- C7, counterexample: the S4 expectation omits the pivot offset that
`process_root_iter` applies last (`pixel_x += pixel_width × (−pivot.norm_x)`,
here `+100×0.5 = +50`, and `pixel_y += pixel_height × (−pivot.norm_y)`, here
`−25`): the pass does not produce `pixel_x = 10, pixel_y = 620`. -/
theorem c7_root_layout_cex :
    (layoutPass 800 600 s4W).map
        (fun e => (e.transform.pixel_x, e.transform.pixel_y)) ≠ [(10, 620)] := by
  have h1 : (layoutPass 800 600 s4W).map
      (fun e => (e.transform.pixel_x, e.transform.pixel_y)) = [(60, 595)] := by
    simp [layoutPass, rootPhase, childPhase, rootStepE, childStepE, s4W, s4Root,
      processRoot, Anchor.norm_offset]
    norm_num
  rw [h1]
  intro hx
  norm_num at hx

/-- C7, amended: one pass of the layout resolver on the S4 root against an
800×600 screen produces `pixel_x = 60` (= 400 + 800×(−0.5) + 10 + 100×0.5),
`pixel_y = 595` (= 300 + 600×0.5 + 20 + 50×(−0.5)), `pixel_width = 100`,
`pixel_height = 50`. -/
theorem c7_root_layout_amended :
    (layoutPass 800 600 s4W).map
        (fun e => (e.transform.pixel_x, e.transform.pixel_y,
          e.transform.pixel_width, e.transform.pixel_height))
      = [(60, 595, 100, 50)] := by
  simp [layoutPass, rootPhase, childPhase, rootStepE, childStepE, s4W, s4Root,
    processRoot, Anchor.norm_offset]
  norm_num

/-- C8, counterexample: the layout pass is not idempotent in general.  (i) With
`XY{x_margin=8, keep_aspect_ratio=true}` against an 8×6 screen the first pass
scales `width`/`height` by the negative factor −8 and the second pass by
−3/4, so the sizes change again (−8 ≠ 6).  (ii) On the three-level chain, the
second pass sees the parent's now-resolved snapshot and moves the grandchild
from `pixel_x = 0` to `pixel_x = 14`. -/
theorem c8_idempotence_cex :
    layoutPass 8 6 (layoutPass 8 6 karW) ≠ layoutPass 8 6 karW ∧
    layoutPass 8 6 (layoutPass 8 6 chainW) ≠ layoutPass 8 6 chainW := by
  constructor
  · have h1 : (layoutPass 8 6 karW).map (fun e => e.transform.width) = [-8] := by
      simp [layoutPass, rootPhase, childPhase, rootStepE, childStepE, karW, karT,
        processRoot, Anchor.norm_offset]
      norm_num
    have h2 : (layoutPass 8 6 (layoutPass 8 6 karW)).map
        (fun e => e.transform.width) = [6] := by
      simp [layoutPass, rootPhase, childPhase, rootStepE, childStepE, karW, karT,
        processRoot, Anchor.norm_offset]
      norm_num
    intro heq
    rw [heq, h1] at h2
    norm_num at h2
  · have h1 : (layoutPass 8 6 chainW).map (fun e => e.transform.pixel_x)
        = [4, 14, 0] := by
      simp [layoutPass, rootPhase, childPhase, rootStepE, childStepE, chainW, midT,
        processRoot, processChild, Anchor.norm_offset, List.find?]
      norm_num
    have h2 : (layoutPass 8 6 (layoutPass 8 6 chainW)).map
        (fun e => e.transform.pixel_x) = [4, 14, 14] := by
      simp [layoutPass, rootPhase, childPhase, rootStepE, childStepE, chainW, midT,
        processRoot, processChild, Anchor.norm_offset, List.find?]
      norm_num
    intro heq
    rw [heq, h1] at h2
    norm_num at h2

/-- C8, amended: the layout pass is idempotent provided no transform uses
`XY{keep_aspect_ratio=true}` (whose scale factor is recomputed from the
already-scaled sizes) and every parented entity's parent is a root (so the
snapshot a child reads is already fixed): under these conditions a second
pass with unchanged inputs reproduces every field of every transform. -/
theorem c8_idempotence_amended (sw sh : ℚ) (w : List UiEntity)
    (hroots : parentsAreRoots w = true)
    (hkar : (w.all fun e => noKar e.transform.stretch) = true) :
    layoutPass sw sh (layoutPass sw sh w) = layoutPass sw sh w := by
  have hkar2 : ∀ e ∈ w, noKar e.transform.stretch = true := List.all_eq_true.mp hkar
  rw [layoutPass_eq_map sw sh (layoutPass sw sh w), layoutPass_eq_map sw sh w,
    List.map_map]
  apply List.map_congr_left
  intro e he
  simp only [Function.comp, rootPhase]
  set g : UiEntity → UiEntity :=
    fun x => childStepE (List.map (rootStepE sw sh) w) (rootStepE sw sh x) with hg
  have hgeid : ∀ x : UiEntity, (g x).eid = x.eid := by
    intro x
    rw [hg]
    simp only
    rw [childStepE_eid, rootStepE_eid]
  have hfind2 : ∀ q : Nat,
      (List.map (rootStepE sw sh) (List.map g w)).find? (fun x => x.eid == q)
        = ((w.find? (fun x => x.eid == q)).map g).map (rootStepE sw sh) := by
    intro q
    rw [find?_map_eid (rootStepE sw sh) (rootStepE_eid sw sh), find?_map_eid g hgeid]
  have hfinds : ∀ q : Nat,
      (List.map (rootStepE sw sh) w).find? (fun x => x.eid == q)
        = (w.find? (fun x => x.eid == q)).map (rootStepE sw sh) := by
    intro q
    rw [find?_map_eid (rootStepE sw sh) (rootStepE_eid sw sh)]
  cases hp : e.parent with
  | none =>
      have hge : childStepE (List.map (rootStepE sw sh) w) (rootStepE sw sh e)
          = { e with transform := processRoot sw sh e.transform } := by
        rw [rootStepE_of_root sw sh e hp,
          childStepE_of_root _ _ ((setTransform_parent e _).trans hp)]
      rw [hge, rootStepE_of_root sw sh _ ((setTransform_parent e _).trans hp),
        setTransform_set, setTransform_transform,
        processRoot_idem sw sh e.transform (hkar2 e he),
        childStepE_of_root _ _ ((setTransform_parent e _).trans hp)]
  | some p =>
      have hre : rootStepE sw sh e = e := rootStepE_of_child sw sh e p hp
      cases hf : w.find? (fun x => x.eid == p) with
      | none =>
          have hge : childStepE (List.map (rootStepE sw sh) w) (rootStepE sw sh e) = e := by
            rw [hre, childStepE_of_missing _ _ p hp (by rw [hfinds, hf]; rfl)]
          rw [hge, hre, childStepE_of_missing _ _ p hp (by rw [hfind2, hf]; rfl)]
      | some pe =>
          have hpemem : pe ∈ w := List.mem_of_find?_eq_some hf
          have hpe : pe.parent = none := parentsAreRoots_spec w hroots e he p hp pe hf
          have hsnapT : (rootStepE sw sh pe).transform = processRoot sw sh pe.transform :=
            rootStepE_transform_of_root sw sh pe hpe
          have hge : childStepE (List.map (rootStepE sw sh) w) (rootStepE sw sh e)
              = { e with transform :=
                  processChild (processRoot sw sh pe.transform) e.transform } := by
            rw [hre, childStepE_of_found _ e p (rootStepE sw sh pe) hp
              (by rw [hfinds, hf]; rfl), hsnapT]
          have hgpe : g pe = { pe with transform := processRoot sw sh pe.transform } := by
            rw [hg]
            simp only
            rw [rootStepE_of_root sw sh pe hpe,
              childStepE_of_root _ _ ((setTransform_parent pe _).trans hpe)]
          have hsnap2T : (rootStepE sw sh (g pe)).transform
              = processRoot sw sh pe.transform := by
            rw [hgpe,
              rootStepE_transform_of_root sw sh _ ((setTransform_parent pe _).trans hpe),
              setTransform_transform,
              processRoot_idem sw sh pe.transform (hkar2 pe hpemem)]
          rw [hge, rootStepE_of_child sw sh _ p ((setTransform_parent e _).trans hp),
            childStepE_of_found _ _ p (rootStepE sw sh (g pe))
              ((setTransform_parent e _).trans hp) (by rw [hfind2, hf]; rfl),
            hsnap2T, setTransform_set, setTransform_transform,
            processChild_idem (processRoot sw sh pe.transform) e.transform (hkar2 e he)]

/-- C8 amended, witness: depth-1 world without `keep_aspect_ratio`. -/
theorem c8_idempotence_amended_witness :
    parentsAreRoots pairW = true ∧
    (pairW.all fun e => noKar e.transform.stretch) = true ∧
    layoutPass 8 6 (layoutPass 8 6 pairW) = layoutPass 8 6 pairW :=
  ⟨by rfl, by rfl, c8_idempotence_amended 8 6 pairW (by rfl) (by rfl)⟩

/-- C9: an entity whose `Parent` names an id absent from the snapshot (the
parent entity has no `UiTransform`) is skipped by the child phase: all its
fields keep their prior values, and the resolver is total — it returns a
world of the same length with that entity unchanged. -/
theorem c9_missing_parent_skip (sw sh : ℚ) (w : List UiEntity) (i p : Nat)
    (hp : (w[i]?).map UiEntity.parent = some (some p))
    (hfind : w.find? (fun x => x.eid == p) = none) :
    (layoutPass sw sh w).length = w.length ∧ (layoutPass sw sh w)[i]? = w[i]? := by
  rw [layoutPass_eq_map]
  refine ⟨by simp, ?_⟩
  rw [List.getElem?_map]
  cases hwi : w[i]? with
  | none => rfl
  | some e =>
      rw [hwi] at hp
      simp only [Option.map_some'] at hp
      have hep : e.parent = some p := by
        cases hpp : e.parent with
        | none => rw [hpp] at hp; cases hp
        | some q => rw [hpp] at hp; cases hp; rfl
      have hre : rootStepE sw sh e = e := rootStepE_of_child sw sh e p hep
      have hfm := find?_map_eid (rootStepE sw sh) (rootStepE_eid sw sh) w p
      simp only [Option.map_some']
      rw [hre, childStepE_of_missing _ _ p hep (by rw [rootPhase, hfm, hfind]; rfl)]

/-- C9, witness: the dangling world (entity 0 points at absent parent 5). -/
theorem c9_missing_parent_skip_witness :
    (danglingW[0]?).map UiEntity.parent = some (some 5) ∧
    danglingW.find? (fun x => x.eid == 5) = none ∧
    ((layoutPass 8 6 danglingW).length = danglingW.length ∧
      (layoutPass 8 6 danglingW)[0]? = danglingW[0]?) :=
  ⟨by rfl, by rfl, c9_missing_parent_skip 8 6 danglingW 0 5 (by rfl) (by rfl)⟩

/-- C10: the layout pass overwrites the `width`/`height` fields themselves
with the stretch-resolved sizes — computed from the screen for roots and from
the parent's pixel box for children — so under any stretch other than
`NoStretch` the intrinsic sizes are replaced (and lost after the pass), while
under `NoStretch` they are left unchanged; concretely, a root with
`Stretch::X{1}` and intrinsic width 2 ends with width 6 ≠ 2 on an 8×6
screen. -/
theorem c10_stretch_overwrites_sizes (sw sh : ℚ) (pt t : UiTransform) :
    (t.stretch = Stretch.NoStretch →
      (processRoot sw sh t).width = t.width ∧ (processRoot sw sh t).height = t.height ∧
      (processChild pt t).width = t.width ∧ (processChild pt t).height = t.height) ∧
    (∀ m, t.stretch = Stretch.X m →
      (processRoot sw sh t).width = sw - m * 2 ∧ (processRoot sw sh t).height = t.height ∧
      (processChild pt t).width = pt.pixel_width - m * 2 ∧
      (processChild pt t).height = t.height) ∧
    (∀ m, t.stretch = Stretch.Y m →
      (processRoot sw sh t).width = t.width ∧ (processRoot sw sh t).height = sh - m * 2 ∧
      (processChild pt t).width = t.width ∧
      (processChild pt t).height = pt.pixel_height - m * 2) ∧
    (∀ mx my, t.stretch = Stretch.XY mx my false →
      (processRoot sw sh t).width = sw - mx * 2 ∧
      (processRoot sw sh t).height = sh - my * 2 ∧
      (processChild pt t).width = pt.pixel_width - mx * 2 ∧
      (processChild pt t).height = pt.pixel_height - my * 2) ∧
    (∀ mx my, t.stretch = Stretch.XY mx my true →
      (processRoot sw sh t).width
          = t.width * min ((sw - mx * 2) / t.width) ((sh - my * 2) / t.height) ∧
      (processRoot sw sh t).height
          = t.height * min ((sw - mx * 2) / t.width) ((sh - my * 2) / t.height) ∧
      (processChild pt t).width
          = t.width * min ((pt.pixel_width - mx * 2) / t.width)
              ((pt.pixel_height - my * 2) / t.height) ∧
      (processChild pt t).height
          = t.height * min ((pt.pixel_width - mx * 2) / t.width)
              ((pt.pixel_height - my * 2) / t.height)) ∧
    (processRoot 8 6 stretchXT).width = 6 ∧ stretchXT.width = 2 := by
  refine ⟨?_, ?_, ?_, ?_, ?_, ?_, by rfl⟩
  · intro hs
    cases hsm : t.scale_mode <;> simp [processRoot, processChild, hs, hsm]
  · intro m hs
    cases hsm : t.scale_mode <;> simp [processRoot, processChild, hs, hsm]
  · intro m hs
    cases hsm : t.scale_mode <;> simp [processRoot, processChild, hs, hsm]
  · intro mx my hs
    cases hsm : t.scale_mode <;> simp [processRoot, processChild, hs, hsm]
  · intro mx my hs
    cases hsm : t.scale_mode <;> simp [processRoot, processChild, hs, hsm]
  · simp [processRoot, stretchXT, Anchor.norm_offset]
    norm_num

/-- C10, witness: the `Stretch::X` case evaluated on a concrete root and a
concrete parent box. -/
theorem c10_stretch_overwrites_sizes_witness :
    stretchXT.stretch = Stretch.X 1 ∧
    ((processRoot 8 6 stretchXT).width = 8 - 1 * 2 ∧
      (processRoot 8 6 stretchXT).height = stretchXT.height ∧
      (processChild parentBoxT stretchXT).width = parentBoxT.pixel_width - 1 * 2 ∧
      (processChild parentBoxT stretchXT).height = stretchXT.height) :=
  ⟨by rfl, ((c10_stretch_overwrites_sizes 8 6 parentBoxT stretchXT).2.1) 1 (by rfl)⟩


set_option maxHeartbeats 2000000 in
/-- C6: the blink system's visibility handling is inverted relative to the
claim and to the `Blink` doc comment in `blink.rs` ("During the first half
period, the entity is visible").  With `delay=1, timer=2/5` (timer < delay/2,
so the entity should be visible) and no `Hidden` marker, the system ADDS the
`Hidden` marker; advancing by a scaled delta of 1/5 correctly yields
`timer = 3/5` (≥ delay/2, so the claim requires the marker to be added), but
the system leaves the marker absent.  The timer-advance half of the claim
holds; the add/remove directions are swapped in the code
(`(true, false) => add_component(Hidden)`). -/
theorem c6_blink_visibility_inverted :
    blinkStep 0 0 { delay := 1, timer := 2/5, absolute_time := false } false
      = ({ delay := 1, timer := 2/5, absolute_time := false }, true) ∧
    blinkStep (1/5) 0 { delay := 1, timer := 2/5, absolute_time := false } false
      = ({ delay := 1, timer := 3/5, absolute_time := false }, false) ∧
    ((2 : ℚ)/5 < (1 : ℚ) / 2) ∧ ¬((3 : ℚ)/5 < (1 : ℚ) / 2) := by
  refine ⟨?_, ?_, by norm_num, by norm_num⟩
  · norm_num [blinkStep]
  · norm_num [blinkStep]

end Amethyst
